import Mathlib

/-!
Verification development for the sonic-host-services repository.

Part 1 embeds `src/host_modules/image_service.py` (the `download`,
`checksum` and `set_next_boot` DBus methods) as pure Lean functions over an
explicit environment that models the filesystem, the HTTP client and the
installer subprocess.

Part 2 embeds the hostcfgd authentication reconciliation engine described
by the specification (aggregator, PAM stack editor, file writer,
reconciliation loop).  The hostcfgd script itself is not present under
src/ (only its RADIUS test is), so those definitions are modelled from the
specification text and say so in their doc comments.
-/

namespace ImageService

/-- errno.EINVAL on Linux. -/
def EINVAL : Int := 22

/-- errno.ENOENT on Linux. -/
def ENOENT : Int := 2

/-- errno.EACCES on Linux. -/
def EACCES : Int := 13

/-- errno.EIO on Linux (renamed to avoid a clash with the IO namespace). -/
def EIOCode : Int := 5

/-- stat.S_IWUSR (0o200): owner write bit. -/
def S_IWUSR : Nat := 128

/-- stat.S_IWGRP (0o020): group write bit. -/
def S_IWGRP : Nat := 16

/-- stat.S_IWOTH (0o002): other write bit. -/
def S_IWOTH : Nat := 2

/-- Python `st_mode & bit` used as a truth value: true iff the bit is set. -/
def hasBit (mode bit : Nat) : Bool := decide (mode &&& bit ≠ 0)

/-- `os.path.isabs` on POSIX: the path starts with a slash. -/
def isAbs (s : String) : Bool :=
  match s.data with
  | [] => false
  | c :: _ => c = '/'

/-- `os.path.dirname` on POSIX: everything up to and including the last
slash, with trailing slashes stripped unless the head is all slashes. -/
def dirname (s : String) : String :=
  let cs := s.data
  let head := (cs.reverse.dropWhile (fun c => c ≠ '/')).reverse
  if head ≠ [] ∧ ¬ head.all (fun c => c = '/') then
    ⟨(head.reverse.dropWhile (fun c => c = '/')).reverse⟩
  else ⟨head⟩

/-- Result of `requests.get`: HTTP status code and the body bytes. -/
structure HttpResponse where
  status : Nat
  content : List Nat
  deriving DecidableEq

/-- Environment of the `download` method: the directory predicate and stat
mode of `os`, the HTTP client (`.error msg` models a raised exception), and
whether the temporary-file write / `os.replace` step raises. -/
structure DownloadEnv where
  isdir : String → Bool
  st_mode : String → Nat
  http : String → Except String HttpResponse
  replaceErr : Option String

/-- A committed write: the directory the temporary file was created in,
the destination the temporary file was renamed over, and the bytes. -/
structure WriteCommit where
  tempDir : String
  dest : String
  content : List Nat
  deriving DecidableEq

/-- Observable outcome of `download`: the returned (code, message) pair,
whether the HTTP request was attempted, and the committed write if any. -/
structure DownloadResult where
  code : Int
  msg : String
  httpCalled : Bool
  commit : Option WriteCommit
  deriving DecidableEq

/-- The temporary directory hard-coded by `download`
(`tempfile.NamedTemporaryFile(dir="/tmp", ...)`). -/
def downloadTempDir : String := "/tmp"

/-- Embedding of `ImageService.download` (src/host_modules/image_service.py
lines 33-76): validate that `save_as` is absolute, that its directory
exists, and that the directory mode has the owner, group and other write
bits; then fetch the URL, write the body to a temporary file under /tmp and
rename it over `save_as` with `os.replace`. -/
def download (env : DownloadEnv) (image_url save_as : String) : DownloadResult :=
  if isAbs save_as = false then
    ⟨EINVAL, "Path is not absolute", false, none⟩
  else
    if env.isdir (dirname save_as) = false then
      ⟨ENOENT, "Directory does not exist", false, none⟩
    else if hasBit (env.st_mode (dirname save_as)) S_IWUSR = false ∨
            hasBit (env.st_mode (dirname save_as)) S_IWGRP = false ∨
            hasBit (env.st_mode (dirname save_as)) S_IWOTH = false then
      ⟨EACCES, "Directory is not all writable", false, none⟩
    else
      match env.http image_url with
      | .error e => ⟨EIOCode, e, true, none⟩
      | .ok resp =>
        if resp.status ≠ 200 then
          ⟨EIOCode, "HTTP error: " ++ toString resp.status, true, none⟩
        else
          match env.replaceErr with
          | some e => ⟨EIOCode, e, true, none⟩
          | none => ⟨0, "Download successful", true,
                     some ⟨downloadTempDir, save_as, resp.content⟩⟩

/-- Python `str.lower` restricted to the ASCII range, which is all the
matched needles use. -/
def lowerStr (s : String) : String := ⟨s.data.map Char.toLower⟩

/-- Substring test on character lists, as Python `needle in hay`. -/
def containsSub (hay needle : List Char) : Bool :=
  match hay with
  | [] => needle.isEmpty
  | _ :: t => needle.isPrefixOf hay || containsSub t needle

/-- The substring condition of `set_next_boot`: the lowercased message
contains "not" and contains "exist" or "found". -/
def notFoundMatch (msg : String) : Bool :=
  let lm := (lowerStr msg).data
  containsSub lm "not".data && (containsSub lm "exist".data || containsSub lm "found".data)

/-- Embedding of `ImageService.set_next_boot` (src/host_modules/
image_service.py lines 166-184), applied to the installer outcome:
`returncode` and decoded `stderr` of the `sonic-installer set-next-boot`
subprocess.  On nonzero return code the message becomes stderr and, when
the lowercased stderr contains "not" together with "exist" or "found", the
code is rewritten to ENOENT. -/
def set_next_boot (image : String) (returncode : Int) (stderr : String) : Int × String :=
  let msg := "Boot image set to " ++ image
  if returncode = 0 then
    (returncode, msg)
  else
    if notFoundMatch stderr then (ENOENT, stderr) else (returncode, stderr)

/-- The three checksum algorithms accepted by `checksum`. -/
inductive HashAlgo
  | sha256
  | sha512
  | md5
  deriving DecidableEq

/-- The if/elif chain of `checksum` selecting a hashlib constructor. -/
def parseAlgo (s : String) : Option HashAlgo :=
  if s = "sha256" then some .sha256
  else if s = "sha512" then some .sha512
  else if s = "md5" then some .md5
  else none

/-- Environment of `checksum`: `os.path.isfile`, the file read (`.error e`
models a raised exception with message `e`), and the hashlib digest
functions, abstracted as the mapping from algorithm and file bytes to the
hex digest string. -/
structure ChecksumEnv where
  isfile : String → Bool
  readBytes : String → Except String (List Nat)
  digest : HashAlgo → List Nat → String

/-- Embedding of `ImageService.checksum` (src/host_modules/image_service.py
lines 103-136): existing-regular-file check first, then the algorithm
check, then the read-and-digest step with EIOCode on a read exception. -/
def checksum (env : ChecksumEnv) (file_path algorithm : String) : Int × String :=
  if env.isfile file_path = false then
    (ENOENT, "File does not exist")
  else
    match parseAlgo algorithm with
    | none => (EINVAL, "Unsupported algorithm")
    | some a =>
      match env.readBytes file_path with
      | .error e => (EIOCode, e)
      | .ok bs => (0, env.digest a bs)

end ImageService

namespace ImageService

/-- Concrete environment in which every `download` pre-check passes and the
HTTP request succeeds with status 200. -/
def envOk : DownloadEnv :=
  { isdir := fun _ => true
    st_mode := fun _ => 511
    http := fun _ => .ok ⟨200, [83, 79, 78]⟩
    replaceErr := none }

/-- Concrete environment for `checksum`: one existing file whose bytes read
successfully, with an abstract digest function. -/
def csEnvOk : ChecksumEnv :=
  { isfile := fun p => p = "/tmp/img.bin"
    readBytes := fun _ => .ok [1, 2, 3]
    digest := fun a bs => toString bs.length ++
      (match a with
       | .sha256 => "-sha256"
       | .sha512 => "-sha512"
       | .md5 => "-md5") }

end ImageService

namespace Hostcfgd

/-- Modelled from the spec: the three authentication backends of
`authentication_order` (spec section 3, AAAConfig).  The first constructor
renders the `local` backend, whose name is a Lean keyword. -/
inductive AuthBackend
  | localAuth
  | radius
  | tacplus
  deriving DecidableEq

/-- Modelled from the spec: the RADIUS authentication-type enumeration
(spec section 3, RadiusGlobalConfig). -/
inductive AuthType
  | pap
  | chap
  | mschapv2
  deriving DecidableEq

/-- Modelled from the spec: parse one token of the raw
`authentication_order` field; an unknown enum value yields none and the
token is skipped (spec section 4.1). -/
def parseBackend (s : String) : Option AuthBackend :=
  if s = "local" then some .localAuth
  else if s = "radius" then some .radius
  else if s = "tacplus" then some .tacplus
  else none

/-- Modelled from the spec: parse a raw auth_type value. -/
def parseAuthType (s : String) : Option AuthType :=
  if s = "pap" then some .pap
  else if s = "chap" then some .chap
  else if s = "mschapv2" then some .mschapv2
  else none

/-- Modelled from the spec: a raw table row as delivered by the
configuration store (spec section 6) — a row key paired with a mapping
from field name to string value. -/
abbrev RawRow : Type := String × List (String × String)

/-- Field lookup in a raw row field mapping. -/
def fieldOf (fields : List (String × String)) (name : String) : Option String :=
  (fields.find? (fun kv => kv.1 = name)).map (fun kv => kv.2)

/-- Modelled from the spec: a parsed but unresolved server row
(spec section 3, RadiusServerConfig / TacplusServerConfig).  The address is
the row key; priority is required; the remaining fields are optional and
inherit from the global row when absent. -/
structure RawServer where
  address : String
  priority : Int
  secret : Option String
  auth_port : Option Nat
  timeout : Option Nat
  retransmit : Option Nat
  source_interface : Option String
  vrf : Option String
  auth_type : Option AuthType
  deriving DecidableEq

/-- Modelled from the spec: the parsed global-defaults row
(spec section 3, RadiusGlobalConfig / TacplusGlobalConfig). -/
structure RawGlobal where
  default_secret : Option String
  default_auth_type : Option AuthType
  default_timeout : Option Nat
  default_retransmit : Option Nat
  source_interface : Option String
  deriving DecidableEq

/-- The global row used when the global table is absent: no defaults. -/
def emptyGlobal : RawGlobal :=
  { default_secret := none
    default_auth_type := none
    default_timeout := none
    default_retransmit := none
    source_interface := none }

/-- Decimal digit accumulation for numeric field parsing. -/
def parseNatCore : List Char → Nat → Option Nat
  | [], acc => some acc
  | c :: cs, acc =>
    if c.isDigit then parseNatCore cs (acc * 10 + (c.toNat - 48)) else none

/-- Modelled from the spec: parse a decimal natural from a raw field value;
a non-numeric value yields none. -/
def parseNat? (s : String) : Option Nat :=
  match s.data with
  | [] => none
  | cs => parseNatCore cs 0

/-- Modelled from the spec: parse a decimal integer (optionally signed)
from a raw field value; a non-numeric value yields none. -/
def parseInt? (s : String) : Option Int :=
  match s.data with
  | [] => none
  | c :: cs =>
    if c = '-' then
      match cs with
      | [] => none
      | _ => (parseNatCore cs 0).map (fun n => -(n : Int))
    else (parseNatCore (c :: cs) 0).map (fun n => (n : Int))

/-- Parse an optional numeric field: absent is fine (none), present but
non-numeric makes the whole row unparseable. -/
def parseOptNat (fields : List (String × String)) (name : String) : Option (Option Nat) :=
  match fieldOf fields name with
  | none => some none
  | some s => (parseNat? s).map some

/-- Parse an optional enum field: absent is fine, present but unknown makes
the whole row unparseable. -/
def parseOptAuthType (fields : List (String × String)) : Option (Option AuthType) :=
  match fieldOf fields "auth_type" with
  | none => some none
  | some s => (parseAuthType s).map some

/-- Modelled from the spec: parse one server row (spec section 4.1).  A row
that cannot be parsed — unknown enum value or non-numeric number — yields
none and is skipped by aggregation. -/
def parseServerRow (row : RawRow) : Option RawServer :=
  match fieldOf row.2 "priority" with
  | none => none
  | some ps =>
    match parseInt? ps with
    | none => none
    | some pr =>
      match parseOptNat row.2 "auth_port" with
      | none => none
      | some port =>
        match parseOptNat row.2 "timeout" with
        | none => none
        | some tmo =>
          match parseOptNat row.2 "retransmit" with
          | none => none
          | some rtx =>
            match parseOptAuthType row.2 with
            | none => none
            | some ty =>
              some { address := row.1
                     priority := pr
                     secret := fieldOf row.2 "secret"
                     auth_port := port
                     timeout := tmo
                     retransmit := rtx
                     source_interface := fieldOf row.2 "source_interface"
                     vrf := fieldOf row.2 "vrf"
                     auth_type := ty }

/-- Modelled from the spec: parse the global-defaults row; a malformed
global row is skipped, i.e. treated as absent. -/
def parseGlobalRow (fields : List (String × String)) : Option RawGlobal :=
  match parseOptNat fields "timeout" with
  | none => none
  | some tmo =>
    match parseOptNat fields "retransmit" with
    | none => none
    | some rtx =>
      match parseOptAuthType fields with
      | none => none
      | some ty =>
        some { default_secret := fieldOf fields "secret"
               default_auth_type := ty
               default_timeout := tmo
               default_retransmit := rtx
               source_interface := fieldOf fields "source_interface" }

/-- Modelled from the spec: documented built-in default timeout in seconds
(spec section 4.1). -/
def DEFAULT_TIMEOUT : Nat := 5

/-- Modelled from the spec: documented built-in default retransmit count
(spec section 4.1). -/
def DEFAULT_RETRANSMIT : Nat := 3

/-- Modelled from the spec: built-in default authentication port. -/
def DEFAULT_AUTH_PORT : Nat := 1812

/-- Modelled from the spec: built-in default authentication type. -/
def DEFAULT_AUTH_TYPE : AuthType := .pap

/-- Modelled from the spec: built-in default for string-valued optionals,
so every resolved server field has a concrete value (spec section 3,
invariants). -/
def DEFAULT_STR : String := ""

/-- Modelled from the spec: a fully resolved server — every optional has
been given a concrete value (spec section 3, DesiredAuthState). -/
structure ResolvedServer where
  address : String
  priority : Int
  secret : String
  auth_port : Nat
  timeout : Nat
  retransmit : Nat
  source_interface : String
  vrf : String
  auth_type : AuthType
  deriving DecidableEq

/-- Modelled from the spec: resolve one optional field — the row value if
present, else the matching global default, else the built-in default
(spec section 4.1). -/
def resolveField {α : Type} (rowv glob : Option α) (builtin : α) : α :=
  match rowv with
  | some v => v
  | none =>
    match glob with
    | some g => g
    | none => builtin

/-- Modelled from the spec: resolve every field of a parsed server row
against the global defaults and the built-in defaults (spec section 4.1). -/
def resolveServer (g : RawGlobal) (r : RawServer) : ResolvedServer :=
  { address := r.address
    priority := r.priority
    secret := resolveField r.secret g.default_secret DEFAULT_STR
    auth_port := resolveField r.auth_port none DEFAULT_AUTH_PORT
    timeout := resolveField r.timeout g.default_timeout DEFAULT_TIMEOUT
    retransmit := resolveField r.retransmit g.default_retransmit DEFAULT_RETRANSMIT
    source_interface := resolveField r.source_interface g.source_interface DEFAULT_STR
    vrf := resolveField r.vrf none DEFAULT_STR
    auth_type := resolveField r.auth_type g.default_auth_type DEFAULT_AUTH_TYPE }

/-- Modelled from the spec: the total server order — priority first, ties
broken by address (spec section 3, invariants). -/
def serverLE (a b : ResolvedServer) : Prop :=
  a.priority < b.priority ∨ (a.priority = b.priority ∧ a.address ≤ b.address)

instance : DecidableRel serverLE := fun a b => by
  unfold serverLE; infer_instance

instance : IsTotal ResolvedServer serverLE where
  total a b := by
    unfold serverLE
    rcases lt_trichotomy a.priority b.priority with h | h | h
    · exact Or.inl (Or.inl h)
    · rcases le_total a.address b.address with h2 | h2
      · exact Or.inl (Or.inr ⟨h, h2⟩)
      · exact Or.inr (Or.inr ⟨h.symm, h2⟩)
    · exact Or.inr (Or.inl h)

instance : IsTrans ResolvedServer serverLE where
  trans a b c hab hbc := by
    unfold serverLE at *
    rcases hab with h1 | ⟨e1, s1⟩
    · rcases hbc with h2 | ⟨e2, _⟩
      · exact Or.inl (h1.trans h2)
      · exact Or.inl (e2 ▸ h1)
    · rcases hbc with h2 | ⟨e2, s2⟩
      · exact Or.inl (e1 ▸ h2)
      · exact Or.inr ⟨e1.trans e2, s1.trans s2⟩

/-- Modelled from the spec: sort a resolved server list by
(priority, address) (spec section 4.1). -/
def sortServers (l : List ResolvedServer) : List ResolvedServer :=
  l.insertionSort serverLE

/-- Modelled from the spec: parse, resolve and sort one server table
against its global table (spec section 4.1).  A malformed global row is
treated as absent; malformed server rows are skipped. -/
def resolveTable (glob : Option (List (String × String))) (rows : List RawRow) :
    List ResolvedServer :=
  let g := (glob.bind parseGlobalRow).getD emptyGlobal
  sortServers (rows.filterMap (fun row => (parseServerRow row).map (resolveServer g)))

/-- Modelled from the spec: the canonical merged snapshot
(spec section 3, DesiredAuthState). -/
structure DesiredAuthState where
  authentication_order : List AuthBackend
  radius_servers : List ResolvedServer
  tacplus_servers : List ResolvedServer
  radius_enabled : Bool
  tacplus_enabled : Bool
  deriving DecidableEq

/-- Modelled from the spec: the aggregator (spec section 4.1).  The AAA
input is the raw `authentication_order` token list, or none when the AAA
table is entirely absent, in which case the order defaults to local login
only.  A backend is enabled only if it appears in the order and has at
least one resolved server. -/
def aggregate (aaa : Option (List String))
    (radius_global : Option (List (String × String))) (radius_rows : List RawRow)
    (tacplus_global : Option (List (String × String))) (tacplus_rows : List RawRow) :
    DesiredAuthState :=
  let order :=
    match aaa with
    | none => [AuthBackend.localAuth]
    | some toks => toks.filterMap parseBackend
  let rs := resolveTable radius_global radius_rows
  let ts := resolveTable tacplus_global tacplus_rows
  { authentication_order := order
    radius_servers := rs
    tacplus_servers := ts
    radius_enabled := decide (AuthBackend.radius ∈ order ∧ rs ≠ [])
    tacplus_enabled := decide (AuthBackend.tacplus ∈ order ∧ ts ≠ []) }

end Hostcfgd

namespace Hostcfgd

/-- Modelled from the spec: the stable marker opening the managed region of
a PAM stack file (spec section 3, ManagedFragment). -/
def startMarker : String := "# AUTHENTICATION MANAGED BLOCK BEGIN"

/-- Modelled from the spec: the stable marker closing the managed region. -/
def endMarker : String := "# AUTHENTICATION MANAGED BLOCK END"

/-- Modelled from the spec: the RADIUS directive line of the managed PAM
fragment (spec section 8, end-to-end scenario). -/
def radiusPamLine : String :=
  "auth [success=done new_authtok_reqd=done default=ignore] pam_radius_auth.so"

/-- Modelled from the spec: the TACACS+ directive line of the managed PAM
fragment. -/
def tacplusPamLine : String :=
  "auth [success=done new_authtok_reqd=done default=ignore] pam_tacplus.so"

/-- Modelled from the spec: the local-auth directive line of the managed
PAM fragment. -/
def localPamLine : String :=
  "auth [success=done new_authtok_reqd=done default=ignore] pam_unix.so"

/-- Modelled from the spec: the directive contributed by one backend of the
order — present for a remote backend only when that backend is enabled
(fail-safe disablement, spec section 3). -/
def backendLine (st : DesiredAuthState) : AuthBackend → Option String
  | .localAuth => some localPamLine
  | .radius => if st.radius_enabled then some radiusPamLine else none
  | .tacplus => if st.tacplus_enabled then some tacplusPamLine else none

/-- Modelled from the spec: the managed PAM fragment — one directive per
enabled backend, in `authentication_order` (spec section 4.3 step 4). -/
def pamFragment (st : DesiredAuthState) : List String :=
  st.authentication_order.filterMap (backendLine st)

/-- Errors of the PAM stack editor and the reconciliation pass
(spec section 7). -/
inductive PassErr
  | templateErr
  | missingTarget
  | ambiguousMarker
  | unterminatedMarker
  deriving DecidableEq

/-- Find the first occurrence of line `m`: returns the lines strictly
before it and the lines strictly after it. -/
def findSplit (m : String) : List String → Option (List String × List String)
  | [] => none
  | l :: ls =>
    if l = m then some ([], ls)
    else
      match findSplit m ls with
      | none => none
      | some (a, b) => some (l :: a, b)

/-- Modelled from the spec: the PAM stack editor on file lines
(spec section 4.3).  Locate the marker-bracketed managed region; replace
its contents with the fragment, remove it when the fragment is empty, or
append a fresh managed block at the documented anchor (here: end of file)
when no region exists; a second region is corruption and is refused. -/
def applyFragment (lines frag : List String) : Except PassErr (List String) :=
  match findSplit startMarker lines with
  | none =>
    if frag.isEmpty then .ok lines
    else .ok (lines ++ startMarker :: (frag ++ [endMarker]))
  | some (pre, rest) =>
    match findSplit endMarker rest with
    | none => .error .unterminatedMarker
    | some (_mid, post) =>
      if startMarker ∈ post then .error .ambiguousMarker
      else if frag.isEmpty then .ok (pre ++ post)
      else .ok (pre ++ startMarker :: (frag ++ endMarker :: post))

/-- The on-disk state: a mapping from path to file lines, none when the
file does not exist. -/
def FS : Type := String → Option (List String)

/-- Modelled from the spec: apply the editor to one PAM stack file; a
missing file is an error — the daemon edits, never creates, these files
(spec section 4.3 step 1). -/
def editStack (fs : FS) (st : DesiredAuthState) (p : String) :
    Except PassErr (String × List String) :=
  match fs p with
  | none => .error .missingTarget
  | some lines =>
    match applyFragment lines (pamFragment st) with
    | .error e => .error e
    | .ok out => .ok (p, out)

/-- Apply the editor to every configured PAM stack path, failing on the
first error. -/
def editStacks (fs : FS) (st : DesiredAuthState) : List String →
    Except PassErr (List (String × List String))
  | [] => .ok []
  | p :: ps =>
    match editStack fs st p with
    | .error e => .error e
    | .ok w =>
      match editStacks fs st ps with
      | .error e => .error e
      | .ok ws => .ok (w :: ws)

/-- Modelled from the spec: the per-deployment pass configuration — the
template renderer producing the rendered output files from the state
(pure; may fail only with a template error), and the service PAM stack
paths edited in place (spec sections 4.2, 4.5). -/
structure PassConfig where
  render : DesiredAuthState → Except PassErr (List (String × List String))
  stackPaths : List String

/-- Modelled from the spec: collect every candidate write of a pass without
committing any (spec section 4.5). -/
def candidates (cfg : PassConfig) (st : DesiredAuthState) (fs : FS) :
    Except PassErr (List (String × List String)) :=
  match cfg.render st with
  | .error e => .error e
  | .ok rendered =>
    match editStacks fs st cfg.stackPaths with
    | .error e => .error e
    | .ok stackWrites => .ok (rendered ++ stackWrites)

/-- Overwrite one path of the filesystem state. -/
def fsWrite (fs : FS) (p : String) (c : List String) : FS :=
  fun q => if q = p then some c else fs q

/-- Modelled from the spec: the file writer commit loop (spec section 4.4):
each write is skipped when the new content equals the existing content,
otherwise performed; returns the new state and the paths actually
written. -/
def commitAll (fs : FS) : List (String × List String) → FS × List String
  | [] => (fs, [])
  | (p, c) :: rest =>
    if fs p = some c then commitAll fs rest
    else ((commitAll (fsWrite fs p c) rest).1,
          p :: (commitAll (fsWrite fs p c) rest).2)

/-- Modelled from the spec: one reconciliation pass (spec section 4.5):
aggregate, collect every candidate render and PAM edit, and only when all
of them succeeded commit them; on any failure leave the filesystem
untouched and write nothing. -/
def runPass (cfg : PassConfig) (aaa : Option (List String))
    (radius_global : Option (List (String × String))) (radius_rows : List RawRow)
    (tacplus_global : Option (List (String × String))) (tacplus_rows : List RawRow)
    (fs : FS) : FS × List String :=
  match candidates cfg (aggregate aaa radius_global radius_rows tacplus_global tacplus_rows) fs with
  | .error _ => (fs, [])
  | .ok writes => commitAll fs writes

end Hostcfgd

namespace Hostcfgd

/-- A concrete well-formed RADIUS server table in one insertion order. -/
def rowsA : List RawRow :=
  [("10.0.0.2", [("priority", "2"), ("timeout", "7")]),
   ("10.0.0.1", [("priority", "1"), ("secret", "s3cr3t")])]

/-- The same RADIUS server table rows in the opposite insertion order. -/
def rowsB : List RawRow :=
  [("10.0.0.1", [("priority", "1"), ("secret", "s3cr3t")]),
   ("10.0.0.2", [("priority", "2"), ("timeout", "7")])]

/-- A malformed server row: its priority is not numeric. -/
def badRow : RawRow := ("10.0.0.3", [("priority", "abc")])

/-- A pass configuration whose renderer always fails with a template
error. -/
def cfgFail : PassConfig :=
  { render := fun _ => .error .templateErr
    stackPaths := [] }

/-- A pass configuration rendering one RADIUS client config file and
editing one SSH PAM stack. -/
def cfgOne : PassConfig :=
  { render := fun _ => .ok [("/etc/pam_radius_auth.conf", ["server 10.0.0.1"])]
    stackPaths := ["/etc/pam.d/sshd"] }

/-- An on-disk state with one pre-provisioned SSH PAM stack containing an
administrator line, a previously inserted managed region, and a trailing
administrator line. -/
def fsOne : FS := fun p =>
  if p = "/etc/pam.d/sshd" then
    some ["#%PAM-1.0", startMarker, "old managed line", endMarker,
          "account required pam_unix.so"]
  else none

/-- The empty on-disk state: no file exists. -/
def fsEmpty : FS := fun _ => none

/-- A concrete global row carrying a default timeout of 5. -/
def gTimeout5 : RawGlobal :=
  { default_secret := some "s3cr3t"
    default_auth_type := none
    default_timeout := some 5
    default_retransmit := none
    source_interface := none }

/-- A concrete parsed server row overriding the timeout to 10. -/
def rTimeout10 : RawServer :=
  { address := "10.0.0.1"
    priority := 1
    secret := none
    auth_port := none
    timeout := some 10
    retransmit := none
    source_interface := none
    vrf := none
    auth_type := none }

/-- The candidate write list produced by cfgOne on the aggregated state of
rowsB over fsOne, used as a concrete pass outcome. -/
def C4writes : List (String × List String) :=
  [("/etc/pam_radius_auth.conf", ["server 10.0.0.1"]),
   ("/etc/pam.d/sshd",
    ["#%PAM-1.0", startMarker, radiusPamLine, localPamLine, endMarker,
     "account required pam_unix.so"])]

/-- A concrete parsed server row with no timeout override. -/
def rNoTimeout : RawServer :=
  { rTimeout10 with timeout := none }

end Hostcfgd

namespace ImageService

theorem containsSub_iff_infix (hay needle : List Char) :
    containsSub hay needle = true ↔ needle <:+: hay := by
  induction hay with
  | nil =>
    simp [containsSub, List.isEmpty_iff, List.infix_nil]
  | cons a t ih =>
    simp only [containsSub, Bool.or_eq_true, List.isPrefixOf_iff_prefix, ih,
      List.infix_cons_iff]

end ImageService

/-- C10: the download operation validates its destination before any
network request, in a fixed order — EINVAL "Path is not absolute" when
`save_as` is not absolute, then ENOENT "Directory does not exist" when its
parent directory is missing, then EACCES "Directory is not all writable"
unless the directory mode has the owner, group and other write bits all
set; the HTTP request is performed only when all three checks pass. -/
theorem C10_download_validation_order (env : ImageService.DownloadEnv)
    (url save_as : String) :
    (ImageService.isAbs save_as = false →
      ImageService.download env url save_as =
        ⟨ImageService.EINVAL, "Path is not absolute", false, none⟩) ∧
    (ImageService.isAbs save_as = true →
      env.isdir (ImageService.dirname save_as) = false →
      ImageService.download env url save_as =
        ⟨ImageService.ENOENT, "Directory does not exist", false, none⟩) ∧
    (ImageService.isAbs save_as = true →
      env.isdir (ImageService.dirname save_as) = true →
      (ImageService.hasBit (env.st_mode (ImageService.dirname save_as))
          ImageService.S_IWUSR = false ∨
       ImageService.hasBit (env.st_mode (ImageService.dirname save_as))
          ImageService.S_IWGRP = false ∨
       ImageService.hasBit (env.st_mode (ImageService.dirname save_as))
          ImageService.S_IWOTH = false) →
      ImageService.download env url save_as =
        ⟨ImageService.EACCES, "Directory is not all writable", false, none⟩) ∧
    (ImageService.isAbs save_as = true →
      env.isdir (ImageService.dirname save_as) = true →
      ImageService.hasBit (env.st_mode (ImageService.dirname save_as))
        ImageService.S_IWUSR = true →
      ImageService.hasBit (env.st_mode (ImageService.dirname save_as))
        ImageService.S_IWGRP = true →
      ImageService.hasBit (env.st_mode (ImageService.dirname save_as))
        ImageService.S_IWOTH = true →
      (ImageService.download env url save_as).httpCalled = true) := by
  refine ⟨fun h1 => ?_, fun h1 h2 => ?_, fun h1 h2 h3 => ?_, fun h1 h2 h3 h4 h5 => ?_⟩
  · simp [ImageService.download, h1]
  · simp [ImageService.download, h1, h2]
  · simp only [ImageService.download, h1, h2]
    simp only [Bool.true_eq_false, if_false]
    rw [if_pos h3]
  · simp only [ImageService.download, h1, h2, h3, h4, h5]
    simp only [Bool.true_eq_false, if_false, false_or, or_self]
    cases henv : env.http url with
    | error e => rfl
    | ok resp =>
      by_cases hs : resp.status = 200
      · simp only [hs]
        cases env.replaceErr <;> rfl
      · simp [hs]

/-- Witness for C10 at concrete inputs: a relative path is rejected with
EINVAL before any HTTP activity. -/
theorem C10_witness :
    ImageService.isAbs "images/sonic.bin" = false ∧
    ImageService.download ImageService.envOk "http://example.com/img"
        "images/sonic.bin" =
      ⟨ImageService.EINVAL, "Path is not absolute", false, none⟩ :=
  ⟨by decide,
   (C10_download_validation_order ImageService.envOk "http://example.com/img"
      "images/sonic.bin").1 (by decide)⟩

/-- C1 counterexample: at the concrete destination "/etc/sonic.bin" the
download commits through a temporary file in /tmp, which is not the
directory of the destination path — refuting the claim that every
committing write stages its temporary file in the destination's own
directory. -/
theorem C1_counterexample_temp_not_in_dest_dir :
    (ImageService.download ImageService.envOk "http://example.com/sonic.bin"
        "/etc/sonic.bin").commit =
      some ⟨ImageService.downloadTempDir, "/etc/sonic.bin", [83, 79, 78]⟩ ∧
    ImageService.downloadTempDir ≠ ImageService.dirname "/etc/sonic.bin" := by
  exact ⟨by decide, by decide⟩

/-- C1 (amended): every committing download write stages the complete
downloaded content in a temporary file under the fixed directory /tmp —
not, in general, the destination's directory — and then renames it over
the destination in a single step, so the commit point is the rename. -/
theorem C1_download_commit_via_tmp (env : ImageService.DownloadEnv)
    (url save_as : String) (c : ImageService.WriteCommit)
    (h : (ImageService.download env url save_as).commit = some c) :
    c.tempDir = ImageService.downloadTempDir ∧ c.dest = save_as ∧
    ∃ resp, env.http url = .ok resp ∧ resp.status = 200 ∧
      c.content = resp.content := by
  unfold ImageService.download at h
  split at h
  · simp at h
  · split at h
    · simp at h
    · split at h
      · simp at h
      · cases henv : env.http url with
        | error e => rw [henv] at h; simp at h
        | ok resp =>
          rw [henv] at h
          simp only at h
          split at h
          · simp at h
          · rename_i hs
            rw [not_not] at hs
            cases hre : env.replaceErr with
            | some e => rw [hre] at h; simp at h
            | none =>
              rw [hre] at h
              simp only [Option.some.injEq] at h
              subst h
              exact ⟨rfl, rfl, resp, rfl, hs, rfl⟩

/-- Witness for the amended C1 at a concrete input: a successful download
to "/etc/sonic.bin" commits through /tmp with the full response body. -/
theorem C1_witness :
    (ImageService.download ImageService.envOk "http://example.com/sonic.bin"
        "/etc/sonic.bin").commit =
      some ⟨ImageService.downloadTempDir, "/etc/sonic.bin", [83, 79, 78]⟩ ∧
    (⟨ImageService.downloadTempDir, "/etc/sonic.bin", [83, 79, 78]⟩ :
        ImageService.WriteCommit).tempDir = ImageService.downloadTempDir ∧
    (⟨ImageService.downloadTempDir, "/etc/sonic.bin", [83, 79, 78]⟩ :
        ImageService.WriteCommit).dest = "/etc/sonic.bin" ∧
    ∃ resp, ImageService.envOk.http "http://example.com/sonic.bin" = .ok resp ∧
      resp.status = 200 ∧
      (⟨ImageService.downloadTempDir, "/etc/sonic.bin", [83, 79, 78]⟩ :
        ImageService.WriteCommit).content = resp.content :=
  ⟨by decide,
   C1_download_commit_via_tmp ImageService.envOk "http://example.com/sonic.bin"
     "/etc/sonic.bin" _ (by decide)⟩

/-- C8: set_next_boot classifies installer failures by substring matching
on the lowercased error output — on a nonzero installer exit whose stderr,
lowercased, contains "not" together with "exist" or "found", it returns
ENOENT with that stderr text; on any other nonzero exit it returns the
installer exit code with the stderr text; on success it returns code 0.
The matching condition is exactly substring containment in the lowercased
stderr. -/
theorem C8_set_next_boot_classification (image : String) (rc : Int)
    (stderr : String) :
    (rc ≠ 0 → ImageService.notFoundMatch stderr = true →
      ImageService.set_next_boot image rc stderr = (ImageService.ENOENT, stderr)) ∧
    (rc ≠ 0 → ImageService.notFoundMatch stderr = false →
      ImageService.set_next_boot image rc stderr = (rc, stderr)) ∧
    (rc = 0 →
      ImageService.set_next_boot image rc stderr =
        (0, "Boot image set to " ++ image)) ∧
    (ImageService.notFoundMatch stderr = true ↔
      ("not".data <:+: (ImageService.lowerStr stderr).data ∧
       ("exist".data <:+: (ImageService.lowerStr stderr).data ∨
        "found".data <:+: (ImageService.lowerStr stderr).data))) := by
  refine ⟨fun h1 h2 => ?_, fun h1 h2 => ?_, fun h1 => ?_, ?_⟩
  · simp [ImageService.set_next_boot, h1, h2]
  · simp [ImageService.set_next_boot, h1, h2]
  · simp [ImageService.set_next_boot, h1]
  · simp only [ImageService.notFoundMatch, Bool.and_eq_true, Bool.or_eq_true,
      ImageService.containsSub_iff_infix]

/-- Witness for C8 at a concrete input: exit code 1 with stderr
"Image FooBar does Not exist" is reclassified as ENOENT. -/
theorem C8_witness :
    (1 : Int) ≠ 0 ∧
    ImageService.notFoundMatch "Image FooBar does Not exist" = true ∧
    ImageService.set_next_boot "FooBar" 1 "Image FooBar does Not exist" =
      (ImageService.ENOENT, "Image FooBar does Not exist") :=
  ⟨by decide, by decide,
   (C8_set_next_boot_classification "FooBar" 1 "Image FooBar does Not exist").1
     (by decide) (by decide)⟩

/-- C9: checksum never raises and checks in a fixed order — ENOENT
"File does not exist" when the path is not an existing regular file
(taking precedence over the algorithm check), then EINVAL
"Unsupported algorithm" when the algorithm is not sha256, sha512 or md5,
then (0, hex digest of the file bytes) on a successful read and
(EIOCode, message) when the read raises. -/
theorem C9_checksum_order (env : ImageService.ChecksumEnv)
    (file_path algorithm : String) :
    (env.isfile file_path = false →
      ImageService.checksum env file_path algorithm =
        (ImageService.ENOENT, "File does not exist")) ∧
    (env.isfile file_path = true → ImageService.parseAlgo algorithm = none →
      ImageService.checksum env file_path algorithm =
        (ImageService.EINVAL, "Unsupported algorithm")) ∧
    (∀ a bs, env.isfile file_path = true →
      ImageService.parseAlgo algorithm = some a →
      env.readBytes file_path = .ok bs →
      ImageService.checksum env file_path algorithm = (0, env.digest a bs)) ∧
    (∀ a e, env.isfile file_path = true →
      ImageService.parseAlgo algorithm = some a →
      env.readBytes file_path = .error e →
      ImageService.checksum env file_path algorithm = (ImageService.EIOCode, e)) ∧
    (ImageService.parseAlgo algorithm = none ↔
      algorithm ≠ "sha256" ∧ algorithm ≠ "sha512" ∧ algorithm ≠ "md5") := by
  refine ⟨fun h1 => ?_, fun h1 h2 => ?_, fun a bs h1 h2 h3 => ?_,
    fun a e h1 h2 h3 => ?_, ?_⟩
  · simp [ImageService.checksum, h1]
  · simp [ImageService.checksum, h1, h2]
  · simp [ImageService.checksum, h1, h2, h3]
  · simp [ImageService.checksum, h1, h2, h3]
  · unfold ImageService.parseAlgo
    by_cases e1 : algorithm = "sha256" <;> by_cases e2 : algorithm = "sha512" <;>
      by_cases e3 : algorithm = "md5" <;> simp [e1, e2, e3]

/-- Witness for C9 at concrete inputs: a missing file gives ENOENT even
with an unsupported algorithm string. -/
theorem C9_witness :
    ImageService.csEnvOk.isfile "/no/such/file" = false ∧
    ImageService.checksum ImageService.csEnvOk "/no/such/file" "crc32" =
      (ImageService.ENOENT, "File does not exist") :=
  ⟨by decide,
   (C9_checksum_order ImageService.csEnvOk "/no/such/file" "crc32").1 (by decide)⟩

namespace Hostcfgd

theorem findSplit_of_not_mem {m : String} {l : List String} (h : m ∉ l) :
    findSplit m l = none := by
  induction l with
  | nil => rfl
  | cons a t ih =>
    rw [List.mem_cons, not_or] at h
    unfold findSplit
    rw [if_neg (fun he => h.1 he.symm), ih h.2]

theorem findSplit_append {m : String} {pre rest : List String} (h : m ∉ pre) :
    findSplit m (pre ++ m :: rest) = some (pre, rest) := by
  induction pre with
  | nil =>
    show findSplit m (m :: rest) = some ([], rest)
    unfold findSplit
    rw [if_pos rfl]
  | cons a t ih =>
    rw [List.mem_cons, not_or] at h
    show findSplit m (a :: (t ++ m :: rest)) = some (a :: t, rest)
    unfold findSplit
    rw [if_neg (fun he => h.1 he.symm), ih h.2]

theorem findSplit_eq_some {m : String} :
    ∀ {l a b : _}, findSplit m l = some (a, b) → l = a ++ m :: b ∧ m ∉ a := by
  intro l
  induction l with
  | nil => intro a b h; exact absurd h (by simp [findSplit])
  | cons x t ih =>
    intro a b h
    unfold findSplit at h
    by_cases he : x = m
    · rw [if_pos he] at h
      simp only [Option.some.injEq, Prod.mk.injEq] at h
      obtain ⟨rfl, rfl⟩ := h
      exact ⟨by simp [he], by simp⟩
    · rw [if_neg he] at h
      cases hf : findSplit m t with
      | none => rw [hf] at h; exact absurd h (by simp)
      | some p =>
        obtain ⟨p1, p2⟩ := p
        rw [hf] at h
        simp only [Option.some.injEq, Prod.mk.injEq] at h
        obtain ⟨rfl, rfl⟩ := h
        obtain ⟨ht, hm⟩ := ih hf
        refine ⟨by rw [ht]; rfl, ?_⟩
        rw [List.mem_cons, not_or]
        exact ⟨fun hmx => he hmx.symm, hm⟩

theorem applyFragment_marked {pre mid post frag : List String}
    (hpre : startMarker ∉ pre) (hmid : endMarker ∉ mid)
    (hpost : startMarker ∉ post) :
    applyFragment (pre ++ startMarker :: (mid ++ endMarker :: post)) frag =
      .ok (if frag.isEmpty then pre ++ post
           else pre ++ startMarker :: (frag ++ endMarker :: post)) := by
  unfold applyFragment
  simp only [findSplit_append hpre, findSplit_append hmid]
  rw [if_neg hpost]
  by_cases hf : frag.isEmpty <;> simp [hf]

end Hostcfgd

/-- C7: applying the PAM stack editor with a changed fragment to a file
that contains unmarked administrator lines around a previously inserted
managed region alters only the marker-bracketed region: the lines before
and after the region are byte-identical before and after the edit. -/
theorem C7_pam_editor_frame (pre mid post frag : List String)
    (hpre : Hostcfgd.startMarker ∉ pre) (hmid : Hostcfgd.endMarker ∉ mid)
    (hpost : Hostcfgd.startMarker ∉ post) (hfrag : frag ≠ []) :
    Hostcfgd.applyFragment
        (pre ++ Hostcfgd.startMarker :: (mid ++ Hostcfgd.endMarker :: post)) frag =
      .ok (pre ++ Hostcfgd.startMarker :: (frag ++ Hostcfgd.endMarker :: post)) := by
  rw [Hostcfgd.applyFragment_marked hpre hmid hpost]
  simp [List.isEmpty_iff, hfrag]

/-- Witness for C7 at a concrete file: two administrator lines survive the
replacement of the managed region byte-for-byte. -/
theorem C7_witness :
    (Hostcfgd.startMarker ∉ ["#%PAM-1.0", "auth required pam_env.so"] ∧
     Hostcfgd.endMarker ∉ ["old managed line"] ∧
     Hostcfgd.startMarker ∉ ["account required pam_unix.so"] ∧
     ["new managed line"] ≠ ([] : List String)) ∧
    Hostcfgd.applyFragment
        (["#%PAM-1.0", "auth required pam_env.so"] ++
          Hostcfgd.startMarker ::
            (["old managed line"] ++ Hostcfgd.endMarker ::
              ["account required pam_unix.so"])) ["new managed line"] =
      .ok (["#%PAM-1.0", "auth required pam_env.so"] ++
            Hostcfgd.startMarker ::
              (["new managed line"] ++ Hostcfgd.endMarker ::
                ["account required pam_unix.so"])) :=
  ⟨⟨by decide, by decide, by decide, by decide⟩,
   C7_pam_editor_frame _ _ _ _ (by decide) (by decide) (by decide) (by decide)⟩

namespace Hostcfgd

theorem mem_pamFragment {st : DesiredAuthState} {x : String}
    (h : x ∈ pamFragment st) :
    x = localPamLine ∨ x = radiusPamLine ∨ x = tacplusPamLine := by
  unfold pamFragment at h
  rw [List.mem_filterMap] at h
  obtain ⟨b, _, hb⟩ := h
  cases b with
  | localAuth =>
    simp only [backendLine, Option.some.injEq] at hb
    exact Or.inl hb.symm
  | radius =>
    simp only [backendLine] at hb
    split at hb
    · simp only [Option.some.injEq] at hb
      exact Or.inr (Or.inl hb.symm)
    · exact absurd hb (by simp)
  | tacplus =>
    simp only [backendLine] at hb
    split at hb
    · simp only [Option.some.injEq] at hb
      exact Or.inr (Or.inr hb.symm)
    · exact absurd hb (by simp)

theorem startMarker_not_mem_pamFragment (st : DesiredAuthState) :
    startMarker ∉ pamFragment st := by
  intro h
  rcases mem_pamFragment h with h1 | h1 | h1 <;> exact absurd h1 (by decide)

theorem endMarker_not_mem_pamFragment (st : DesiredAuthState) :
    endMarker ∉ pamFragment st := by
  intro h
  rcases mem_pamFragment h with h1 | h1 | h1 <;> exact absurd h1 (by decide)

theorem radiusPamLine_not_mem_pamFragment {st : DesiredAuthState}
    (h : st.radius_enabled = false) : radiusPamLine ∉ pamFragment st := by
  intro hm
  unfold pamFragment at hm
  rw [List.mem_filterMap] at hm
  obtain ⟨b, _, hb⟩ := hm
  cases b with
  | localAuth =>
    simp only [backendLine, Option.some.injEq] at hb
    exact absurd hb (by decide)
  | radius =>
    simp only [backendLine] at hb
    rw [h] at hb
    exact absurd hb (by simp)
  | tacplus =>
    simp only [backendLine] at hb
    split at hb
    · simp only [Option.some.injEq] at hb
      exact absurd hb (by decide)
    · exact absurd hb (by simp)

end Hostcfgd

/-- C2: a backend is enabled in the aggregated state exactly when it
appears in the authentication order and has at least one resolved server;
in particular with radius in the order but an empty RADIUS_SERVER table,
radius_enabled is false, the managed fragment carries no RADIUS directive,
and no edited PAM stack contains the RADIUS directive. -/
theorem C2_fail_safe_disablement (aaa : Option (List String))
    (rg : Option (List (String × String))) (rrows : List Hostcfgd.RawRow)
    (tg : Option (List (String × String))) (trows : List Hostcfgd.RawRow) :
    ((Hostcfgd.aggregate aaa rg rrows tg trows).radius_enabled = true ↔
      (Hostcfgd.AuthBackend.radius ∈
          (Hostcfgd.aggregate aaa rg rrows tg trows).authentication_order ∧
       (Hostcfgd.aggregate aaa rg rrows tg trows).radius_servers ≠ [])) ∧
    ((Hostcfgd.aggregate aaa rg rrows tg trows).tacplus_enabled = true ↔
      (Hostcfgd.AuthBackend.tacplus ∈
          (Hostcfgd.aggregate aaa rg rrows tg trows).authentication_order ∧
       (Hostcfgd.aggregate aaa rg rrows tg trows).tacplus_servers ≠ [])) ∧
    (rrows = [] →
      (Hostcfgd.aggregate aaa rg rrows tg trows).radius_enabled = false ∧
      Hostcfgd.radiusPamLine ∉
        Hostcfgd.pamFragment (Hostcfgd.aggregate aaa rg rrows tg trows) ∧
      ∀ pre mid post out,
        Hostcfgd.startMarker ∉ pre → Hostcfgd.endMarker ∉ mid →
        Hostcfgd.startMarker ∉ post →
        Hostcfgd.radiusPamLine ∉ pre → Hostcfgd.radiusPamLine ∉ post →
        Hostcfgd.applyFragment
            (pre ++ Hostcfgd.startMarker :: (mid ++ Hostcfgd.endMarker :: post))
            (Hostcfgd.pamFragment (Hostcfgd.aggregate aaa rg rrows tg trows)) =
          .ok out →
        Hostcfgd.radiusPamLine ∉ out) := by
  refine ⟨by exact decide_eq_true_iff, by exact decide_eq_true_iff, fun hrows => ?_⟩
  have hen : (Hostcfgd.aggregate aaa rg rrows tg trows).radius_enabled = false := by
    subst hrows
    apply decide_eq_false
    simp [Hostcfgd.aggregate, Hostcfgd.resolveTable, Hostcfgd.sortServers]
  refine ⟨hen, Hostcfgd.radiusPamLine_not_mem_pamFragment hen, ?_⟩
  intro pre mid post out hpre hmid hpost hrpre hrpost happly
  rw [Hostcfgd.applyFragment_marked hpre hmid hpost] at happly
  simp only [Except.ok.injEq] at happly
  subst happly
  split
  · rw [List.mem_append]
    rintro (hc | hc)
    · exact hrpre hc
    · exact hrpost hc
  · rw [List.mem_append, List.mem_cons, List.mem_append, List.mem_cons]
    rintro (hc | hc | hc | hc | hc)
    · exact hrpre hc
    · exact absurd hc (by decide)
    · exact Hostcfgd.radiusPamLine_not_mem_pamFragment hen hc
    · exact absurd hc (by decide)
    · exact hrpost hc

/-- Witness for C2 at a concrete input: the order requests radius but the
RADIUS server table is empty, so radius is disabled and no RADIUS directive
reaches the fragment. -/
theorem C2_witness :
    ([] : List Hostcfgd.RawRow) = [] ∧
    (Hostcfgd.aggregate (some ["radius", "local"]) none [] none []).radius_enabled
      = false ∧
    Hostcfgd.radiusPamLine ∉
      Hostcfgd.pamFragment (Hostcfgd.aggregate (some ["radius", "local"]) none [] none []) :=
  ⟨rfl,
   ((C2_fail_safe_disablement (some ["radius", "local"]) none [] none []).2.2 rfl).1,
   ((C2_fail_safe_disablement (some ["radius", "local"]) none [] none []).2.2 rfl).2.1⟩

/-- C3: if collecting the candidate renders and PAM edits of a pass fails,
the pass commits nothing — the resulting filesystem state is the pre-pass
state, file by file, and the list of written paths is empty. -/
theorem C3_all_or_nothing (cfg : Hostcfgd.PassConfig) (aaa : Option (List String))
    (rg : Option (List (String × String))) (rrows : List Hostcfgd.RawRow)
    (tg : Option (List (String × String))) (trows : List Hostcfgd.RawRow)
    (fs : Hostcfgd.FS) (e : Hostcfgd.PassErr)
    (h : Hostcfgd.candidates cfg (Hostcfgd.aggregate aaa rg rrows tg trows) fs =
      .error e) :
    Hostcfgd.runPass cfg aaa rg rrows tg trows fs = (fs, []) ∧
    ∀ p, (Hostcfgd.runPass cfg aaa rg rrows tg trows fs).1 p = fs p := by
  have hmain : Hostcfgd.runPass cfg aaa rg rrows tg trows fs = (fs, []) := by
    unfold Hostcfgd.runPass
    rw [h]
  exact ⟨hmain, fun p => by rw [hmain]⟩

/-- Witness for C3 at a concrete input: a failing template renderer aborts
the pass and the filesystem is returned untouched. -/
theorem C3_witness :
    Hostcfgd.candidates Hostcfgd.cfgFail
        (Hostcfgd.aggregate none none [] none []) Hostcfgd.fsEmpty =
      .error .templateErr ∧
    Hostcfgd.runPass Hostcfgd.cfgFail none none [] none [] Hostcfgd.fsEmpty =
      (Hostcfgd.fsEmpty, []) :=
  ⟨rfl,
   (C3_all_or_nothing Hostcfgd.cfgFail none none [] none [] Hostcfgd.fsEmpty
      .templateErr rfl).1⟩

/-- C5: aggregation is total and skips exactly the malformed rows — with
the AAA table absent the order is local only; removing an unparseable
server row (or an unknown authentication-order token) from the input does
not change the aggregated state. -/
theorem C5_total_skips_malformed :
    (∀ rg rrows tg trows,
      (Hostcfgd.aggregate none rg rrows tg trows).authentication_order =
        [Hostcfgd.AuthBackend.localAuth]) ∧
    (∀ aaa rg tg trows rrows₁ rrows₂ (row : Hostcfgd.RawRow),
      Hostcfgd.parseServerRow row = none →
      Hostcfgd.aggregate aaa rg (rrows₁ ++ row :: rrows₂) tg trows =
        Hostcfgd.aggregate aaa rg (rrows₁ ++ rrows₂) tg trows) ∧
    (∀ aaa rg rrows tg trows₁ trows₂ (row : Hostcfgd.RawRow),
      Hostcfgd.parseServerRow row = none →
      Hostcfgd.aggregate aaa rg rrows tg (trows₁ ++ row :: trows₂) =
        Hostcfgd.aggregate aaa rg rrows tg (trows₁ ++ trows₂)) ∧
    (∀ rg rrows tg trows toks₁ toks₂ tok,
      Hostcfgd.parseBackend tok = none →
      Hostcfgd.aggregate (some (toks₁ ++ tok :: toks₂)) rg rrows tg trows =
        Hostcfgd.aggregate (some (toks₁ ++ toks₂)) rg rrows tg trows) := by
  refine ⟨fun rg rrows tg trows => rfl,
    fun aaa rg tg trows rrows₁ rrows₂ row h => ?_,
    fun aaa rg rrows tg trows₁ trows₂ row h => ?_,
    fun rg rrows tg trows toks₁ toks₂ tok h => ?_⟩
  · unfold Hostcfgd.aggregate Hostcfgd.resolveTable
    simp only [List.filterMap_append, List.filterMap_cons, h, Option.map_none']
  · unfold Hostcfgd.aggregate Hostcfgd.resolveTable
    simp only [List.filterMap_append, List.filterMap_cons, h, Option.map_none']
  · unfold Hostcfgd.aggregate
    simp only [List.filterMap_append, List.filterMap_cons, h]

/-- Witness for C5 at a concrete input: a server row with a non-numeric
priority is skipped and aggregation proceeds with the remaining rows. -/
theorem C5_witness :
    Hostcfgd.parseServerRow Hostcfgd.badRow = none ∧
    Hostcfgd.aggregate (some ["radius", "local"]) none
        ([] ++ Hostcfgd.badRow :: Hostcfgd.rowsB) none [] =
      Hostcfgd.aggregate (some ["radius", "local"]) none ([] ++ Hostcfgd.rowsB)
        none [] :=
  ⟨by decide,
   C5_total_skips_malformed.2.1 (some ["radius", "local"]) none none [] []
     Hostcfgd.rowsB Hostcfgd.badRow (by decide)⟩

/-- C6: each optional server field resolves to the row value when present,
else the global default when present, else the documented built-in default;
the built-in timeout is 5 and the built-in retransmit is 3. -/
theorem C6_override_resolution (g : Hostcfgd.RawGlobal) (r : Hostcfgd.RawServer) :
    ((Hostcfgd.resolveServer g r).timeout =
      Hostcfgd.resolveField r.timeout g.default_timeout Hostcfgd.DEFAULT_TIMEOUT) ∧
    ((Hostcfgd.resolveServer g r).retransmit =
      Hostcfgd.resolveField r.retransmit g.default_retransmit
        Hostcfgd.DEFAULT_RETRANSMIT) ∧
    (∀ v, r.timeout = some v → (Hostcfgd.resolveServer g r).timeout = v) ∧
    (r.timeout = none → ∀ w, g.default_timeout = some w →
      (Hostcfgd.resolveServer g r).timeout = w) ∧
    (r.timeout = none → g.default_timeout = none →
      (Hostcfgd.resolveServer g r).timeout = 5) ∧
    (∀ v, r.retransmit = some v → (Hostcfgd.resolveServer g r).retransmit = v) ∧
    (r.retransmit = none → ∀ w, g.default_retransmit = some w →
      (Hostcfgd.resolveServer g r).retransmit = w) ∧
    (r.retransmit = none → g.default_retransmit = none →
      (Hostcfgd.resolveServer g r).retransmit = 3) := by
  refine ⟨rfl, rfl, fun v hv => ?_, fun h0 w hw => ?_, fun h0 h1 => ?_,
    fun v hv => ?_, fun h0 w hw => ?_, fun h0 h1 => ?_⟩ <;>
    simp [Hostcfgd.resolveServer, Hostcfgd.resolveField, Hostcfgd.DEFAULT_TIMEOUT,
      Hostcfgd.DEFAULT_RETRANSMIT, *]

/-- Witness for C6 at the spec's concrete example: a global timeout of 5
with a server override of 10 resolves to 10, and with no override resolves
to 5. -/
theorem C6_witness :
    Hostcfgd.rTimeout10.timeout = some 10 ∧
    (Hostcfgd.resolveServer Hostcfgd.gTimeout5 Hostcfgd.rTimeout10).timeout = 10 ∧
    Hostcfgd.rNoTimeout.timeout = none ∧
    Hostcfgd.gTimeout5.default_timeout = some 5 ∧
    (Hostcfgd.resolveServer Hostcfgd.gTimeout5 Hostcfgd.rNoTimeout).timeout = 5 :=
  ⟨rfl,
   (C6_override_resolution Hostcfgd.gTimeout5 Hostcfgd.rTimeout10).2.2.1 10 rfl,
   rfl, rfl,
   (C6_override_resolution Hostcfgd.gTimeout5 Hostcfgd.rNoTimeout).2.2.2.1 rfl 5 rfl⟩

namespace Hostcfgd

theorem not_mem_of_findSplit_eq_none {m : String} :
    ∀ {l : List String}, findSplit m l = none → m ∉ l := by
  intro l
  induction l with
  | nil => intro _; simp
  | cons a t ih =>
    intro h
    unfold findSplit at h
    by_cases he : a = m
    · rw [if_pos he] at h; exact absurd h (by simp)
    · rw [if_neg he] at h
      cases hf : findSplit m t with
      | none =>
        rw [List.mem_cons, not_or]
        exact ⟨fun hm => he hm.symm, ih hf⟩
      | some p =>
        obtain ⟨a2, b2⟩ := p
        rw [hf] at h
        exact absurd h (by simp)

theorem eq_of_perm_of_sorted_on {α : Type} {r : α → α → Prop} :
    ∀ {l₁ l₂ : List α}, l₁.Perm l₂ → l₁.Sorted r → l₂.Sorted r →
      (∀ a ∈ l₁, ∀ b ∈ l₁, r a b → r b a → a = b) → l₁ = l₂ := by
  intro l₁
  induction l₁ with
  | nil =>
    intro l₂ hp _ _ _
    exact hp.nil_eq
  | cons a t₁ ih =>
    intro l₂ hp hs₁ hs₂ hanti
    cases l₂ with
    | nil => exact absurd hp.eq_nil (by simp)
    | cons b t₂ =>
      have hbmem : b ∈ a :: t₁ := hp.symm.subset (List.mem_cons_self b t₂)
      have hamem : a ∈ b :: t₂ := hp.subset (List.mem_cons_self a t₁)
      have hab : a = b := by
        rcases List.mem_cons.mp hbmem with hba | hbt
        · exact hba.symm
        · rcases List.mem_cons.mp hamem with hab2 | hat
          · exact hab2
          · have rab : r a b := (List.sorted_cons.mp hs₁).1 b hbt
            have rba : r b a := (List.sorted_cons.mp hs₂).1 a hat
            exact hanti a (List.mem_cons_self a t₁) b hbmem rab rba
      subst hab
      have hp2 : t₁.Perm t₂ := hp.cons_inv
      have ht : t₁ = t₂ :=
        ih hp2 (List.sorted_cons.mp hs₁).2 (List.sorted_cons.mp hs₂).2
          (fun x hx y hy hxy hyx =>
            hanti x (List.mem_cons_of_mem a hx) y (List.mem_cons_of_mem a hy) hxy hyx)
      rw [ht]

theorem serverLE_antisymm_key {a b : ResolvedServer}
    (h1 : serverLE a b) (h2 : serverLE b a) :
    a.priority = b.priority ∧ a.address = b.address := by
  unfold serverLE at h1 h2
  rcases h1 with h1 | ⟨e1, s1⟩ <;> rcases h2 with h2 | ⟨e2, s2⟩
  · exact absurd h2 (lt_asymm h1)
  · exact absurd h1 (by omega)
  · exact absurd h2 (by omega)
  · exact ⟨e1, le_antisymm s1 s2⟩

theorem sortServers_congr {l₁ l₂ : List ResolvedServer} (hp : l₁.Perm l₂)
    (hinj : ∀ a ∈ l₁, ∀ b ∈ l₁, a.address = b.address → a = b) :
    sortServers l₁ = sortServers l₂ := by
  apply eq_of_perm_of_sorted_on (r := serverLE)
  · exact (List.perm_insertionSort serverLE l₁).trans
      (hp.trans (List.perm_insertionSort serverLE l₂).symm)
  · exact List.sorted_insertionSort serverLE l₁
  · exact List.sorted_insertionSort serverLE l₂
  · intro a ha b hb hab hba
    unfold sortServers at ha hb
    rw [List.mem_insertionSort] at ha hb
    obtain ⟨_, haddr⟩ := serverLE_antisymm_key hab hba
    exact hinj a ha b hb haddr

theorem parseServerRow_address {row : RawRow} {r : RawServer}
    (h : parseServerRow row = some r) : r.address = row.1 := by
  unfold parseServerRow at h
  repeat' split at h
  all_goals simp_all
  all_goals subst h
  all_goals rfl

theorem parse_resolve_address {g : RawGlobal} {row : RawRow} {s : ResolvedServer}
    (h : (parseServerRow row).map (resolveServer g) = some s) :
    s.address = row.1 := by
  cases hp : parseServerRow row with
  | none => rw [hp] at h; exact absurd h (by simp)
  | some r =>
    rw [hp] at h
    simp only [Option.map_some', Option.some.injEq] at h
    subst h
    exact parseServerRow_address hp

theorem resolved_inj_on {g : RawGlobal} {rows : List RawRow}
    (hnd : (rows.map Prod.fst).Nodup) :
    ∀ a ∈ rows.filterMap (fun row => (parseServerRow row).map (resolveServer g)),
    ∀ b ∈ rows.filterMap (fun row => (parseServerRow row).map (resolveServer g)),
      a.address = b.address → a = b := by
  intro a ha b hb heq
  rw [List.mem_filterMap] at ha hb
  obtain ⟨ra, hra, hfa⟩ := ha
  obtain ⟨rb, hrb, hfb⟩ := hb
  have haddra : a.address = ra.1 := parse_resolve_address hfa
  have haddrb : b.address = rb.1 := parse_resolve_address hfb
  have hkey : ra.1 = rb.1 := by rw [← haddra, ← haddrb, heq]
  have hrr : ra = rb := List.inj_on_of_nodup_map hnd hra hrb hkey
  subst hrr
  exact Option.some.inj (hfa.symm.trans hfb)

theorem resolveTable_perm_eq {glob : Option (List (String × String))}
    {rows₁ rows₂ : List RawRow} (hp : rows₁.Perm rows₂)
    (hnd : (rows₁.map Prod.fst).Nodup) :
    resolveTable glob rows₁ = resolveTable glob rows₂ := by
  unfold resolveTable
  apply sortServers_congr
  · exact hp.filterMap _
  · exact resolved_inj_on hnd

theorem aggregate_perm_eq (aaa : Option (List String))
    (rg tg : Option (List (String × String)))
    {rrows₁ rrows₂ trows₁ trows₂ : List RawRow}
    (hr : rrows₁.Perm rrows₂) (ht : trows₁.Perm trows₂)
    (hnr : (rrows₁.map Prod.fst).Nodup) (hnt : (trows₁.map Prod.fst).Nodup) :
    aggregate aaa rg rrows₁ tg trows₁ = aggregate aaa rg rrows₂ tg trows₂ := by
  unfold aggregate
  simp only [resolveTable_perm_eq hr hnr, resolveTable_perm_eq ht hnt]

end Hostcfgd

namespace Hostcfgd

theorem commitAll_not_mem :
    ∀ (l : List (String × List String)) (fs : FS) (p : String),
      p ∉ l.map Prod.fst → (commitAll fs l).1 p = fs p := by
  intro l
  induction l with
  | nil => intro fs p _; rfl
  | cons w rest ih =>
    intro fs p hp
    obtain ⟨q, c⟩ := w
    rw [List.map_cons, List.mem_cons, not_or] at hp
    unfold commitAll
    by_cases he : fs q = some c
    · rw [if_pos he]
      exact ih fs p hp.2
    · rw [if_neg he]
      simp only
      rw [ih (fsWrite fs q c) p hp.2]
      unfold fsWrite
      rw [if_neg hp.1]

theorem commitAll_mem :
    ∀ (l : List (String × List String)) (fs : FS) (p : String) (c : List String),
      (l.map Prod.fst).Nodup → (p, c) ∈ l → (commitAll fs l).1 p = some c := by
  intro l
  induction l with
  | nil => intro fs p c _ h; exact absurd h (by simp)
  | cons w rest ih =>
    intro fs p c hnd hm
    obtain ⟨q, d⟩ := w
    rw [List.map_cons, List.nodup_cons] at hnd
    rcases List.mem_cons.mp hm with heq | hmem
    · injection heq with h1 h2
      subst h1
      subst h2
      unfold commitAll
      by_cases he : fs p = some c
      · rw [if_pos he, commitAll_not_mem rest fs p hnd.1]
        exact he
      · rw [if_neg he]
        simp only
        rw [commitAll_not_mem rest (fsWrite fs p c) p hnd.1]
        unfold fsWrite
        rw [if_pos rfl]
    · unfold commitAll
      by_cases he : fs q = some d
      · rw [if_pos he]
        exact ih fs p c hnd.2 hmem
      · rw [if_neg he]
        simp only
        exact ih (fsWrite fs q d) p c hnd.2 hmem

theorem commitAll_noop :
    ∀ (l : List (String × List String)) (fs : FS),
      (∀ w ∈ l, fs w.1 = some w.2) → commitAll fs l = (fs, []) := by
  intro l
  induction l with
  | nil => intro fs _; rfl
  | cons w rest ih =>
    intro fs h
    obtain ⟨q, d⟩ := w
    unfold commitAll
    rw [if_pos (h (q, d) (List.mem_cons_self _ _))]
    exact ih fs (fun w hw => h w (List.mem_cons_of_mem _ hw))

end Hostcfgd

namespace Hostcfgd

theorem applyFragment_idem {lines frag out : List String}
    (_hsf : startMarker ∉ frag) (hef : endMarker ∉ frag)
    (h : applyFragment lines frag = .ok out) :
    applyFragment out frag = .ok out := by
  unfold applyFragment at h
  cases hf : findSplit startMarker lines with
  | none =>
    simp only [hf] at h
    by_cases hemp : frag.isEmpty
    · rw [if_pos hemp] at h
      obtain rfl := Except.ok.inj h
      have hnot : startMarker ∉ lines := not_mem_of_findSplit_eq_none hf
      unfold applyFragment
      rw [findSplit_of_not_mem hnot, if_pos hemp]
    · rw [if_neg hemp] at h
      obtain rfl := Except.ok.inj h
      have hnot : startMarker ∉ lines := not_mem_of_findSplit_eq_none hf
      unfold applyFragment
      simp only [findSplit_append hnot, findSplit_append hef]
      rw [if_neg (List.not_mem_nil startMarker), if_neg hemp]
  | some p =>
    obtain ⟨pre, rest⟩ := p
    simp only [hf] at h
    obtain ⟨hlines, hpre⟩ := findSplit_eq_some hf
    cases hg : findSplit endMarker rest with
    | none =>
      simp only [hg] at h
      exact absurd h (by simp)
    | some q =>
      obtain ⟨mid, post⟩ := q
      simp only [hg] at h
      by_cases hpost : startMarker ∈ post
      · rw [if_pos hpost] at h
        exact absurd h (by simp)
      · rw [if_neg hpost] at h
        by_cases hemp : frag.isEmpty
        · rw [if_pos hemp] at h
          obtain rfl := Except.ok.inj h
          have hnot : startMarker ∉ pre ++ post := by
            rw [List.mem_append]
            rintro (hc | hc)
            · exact hpre hc
            · exact hpost hc
          unfold applyFragment
          rw [findSplit_of_not_mem hnot, if_pos hemp]
        · rw [if_neg hemp] at h
          obtain rfl := Except.ok.inj h
          unfold applyFragment
          simp only [findSplit_append hpre, findSplit_append hef]
          rw [if_neg hpost, if_neg hemp]

theorem editStack_ok {fs : FS} {st : DesiredAuthState} {p : String}
    {w : String × List String} (h : editStack fs st p = .ok w) :
    w.1 = p ∧ ∃ lines, fs p = some lines ∧
      applyFragment lines (pamFragment st) = .ok w.2 := by
  unfold editStack at h
  cases hf : fs p with
  | none =>
    simp only [hf] at h
    exact absurd h (by simp)
  | some lines =>
    simp only [hf] at h
    cases ha : applyFragment lines (pamFragment st) with
    | error e =>
      simp only [ha] at h
      exact absurd h (by simp)
    | ok outl =>
      simp only [ha] at h
      obtain rfl := Except.ok.inj h
      exact ⟨rfl, lines, rfl, ha⟩

theorem editStacks_stable {st : DesiredAuthState} {fs fs2 : FS} :
    ∀ {ps : List String} {ws : List (String × List String)},
      editStacks fs st ps = .ok ws →
      (∀ w ∈ ws, fs2 w.1 = some w.2) →
      editStacks fs2 st ps = .ok ws := by
  intro ps
  induction ps with
  | nil =>
    intro ws h _
    exact h
  | cons p ps ih =>
    intro ws h hall
    unfold editStacks at h ⊢
    cases h1 : editStack fs st p with
    | error e =>
      simp only [h1] at h
      exact absurd h (by simp)
    | ok w0 =>
      simp only [h1] at h
      cases h2 : editStacks fs st ps with
      | error e =>
        simp only [h2] at h
        exact absurd h (by simp)
      | ok ws0 =>
        simp only [h2] at h
        obtain rfl := Except.ok.inj h
        obtain ⟨hw1, lines, hfp, happ⟩ := editStack_ok h1
        have hf2 : fs2 p = some w0.2 := by
          rw [← hw1]
          exact hall w0 (List.mem_cons_self _ _)
        have happ2 : applyFragment w0.2 (pamFragment st) = .ok w0.2 :=
          applyFragment_idem (startMarker_not_mem_pamFragment st)
            (endMarker_not_mem_pamFragment st) happ
        have hes : editStack fs2 st p = .ok w0 := by
          unfold editStack
          simp only [hf2, happ2]
          rw [← hw1]
        simp only [hes, ih h2 (fun w hw => hall w (List.mem_cons_of_mem _ hw))]

end Hostcfgd

/-- C4: aggregation is deterministic and order-insensitive — permuted
server row sets with unique address keys aggregate to the same state, so
the whole pass produces identical output; and the pass is idempotent — a
successful pass followed by a second pass on unchanged input yields a
byte-identical filesystem and zero additional writes. -/
theorem C4_deterministic_idempotent :
    (∀ (aaa : Option (List String)) (rg tg : Option (List (String × String)))
        (rrows₁ rrows₂ trows₁ trows₂ : List Hostcfgd.RawRow),
      rrows₁.Perm rrows₂ → trows₁.Perm trows₂ →
      (rrows₁.map Prod.fst).Nodup → (trows₁.map Prod.fst).Nodup →
      Hostcfgd.aggregate aaa rg rrows₁ tg trows₁ =
        Hostcfgd.aggregate aaa rg rrows₂ tg trows₂ ∧
      ∀ cfg fs, Hostcfgd.runPass cfg aaa rg rrows₁ tg trows₁ fs =
        Hostcfgd.runPass cfg aaa rg rrows₂ tg trows₂ fs) ∧
    (∀ (cfg : Hostcfgd.PassConfig) (aaa : Option (List String))
        (rg : Option (List (String × String))) (rrows : List Hostcfgd.RawRow)
        (tg : Option (List (String × String))) (trows : List Hostcfgd.RawRow)
        (fs : Hostcfgd.FS) (writes : List (String × List String)),
      Hostcfgd.candidates cfg (Hostcfgd.aggregate aaa rg rrows tg trows) fs =
        .ok writes →
      (writes.map Prod.fst).Nodup →
      Hostcfgd.runPass cfg aaa rg rrows tg trows fs =
        Hostcfgd.commitAll fs writes ∧
      Hostcfgd.runPass cfg aaa rg rrows tg trows
          ((Hostcfgd.commitAll fs writes).1) =
        ((Hostcfgd.commitAll fs writes).1, [])) := by
  constructor
  · intro aaa rg tg rrows₁ rrows₂ trows₁ trows₂ hr ht hnr hnt
    have hagg := Hostcfgd.aggregate_perm_eq aaa rg tg hr ht hnr hnt
    refine ⟨hagg, fun cfg fs => ?_⟩
    unfold Hostcfgd.runPass
    rw [hagg]
  · intro cfg aaa rg rrows tg trows fs writes h hnd
    have hrun1 : Hostcfgd.runPass cfg aaa rg rrows tg trows fs =
        Hostcfgd.commitAll fs writes := by
      unfold Hostcfgd.runPass
      rw [h]
    refine ⟨hrun1, ?_⟩
    have hall : ∀ w ∈ writes, (Hostcfgd.commitAll fs writes).1 w.1 = some w.2 :=
      fun w hw => Hostcfgd.commitAll_mem writes fs w.1 w.2 hnd hw
    have hc2 : Hostcfgd.candidates cfg (Hostcfgd.aggregate aaa rg rrows tg trows)
        ((Hostcfgd.commitAll fs writes).1) = .ok writes := by
      unfold Hostcfgd.candidates at h ⊢
      cases hr2 : cfg.render (Hostcfgd.aggregate aaa rg rrows tg trows) with
      | error e =>
        simp only [hr2] at h
        exact absurd h (by simp)
      | ok rendered =>
        simp only [hr2] at h ⊢
        cases hs2 : Hostcfgd.editStacks fs
            (Hostcfgd.aggregate aaa rg rrows tg trows) cfg.stackPaths with
        | error e =>
          simp only [hs2] at h
          exact absurd h (by simp)
        | ok sws =>
          simp only [hs2] at h
          obtain rfl := Except.ok.inj h
          have hstab : Hostcfgd.editStacks
              ((Hostcfgd.commitAll fs (rendered ++ sws)).1)
              (Hostcfgd.aggregate aaa rg rrows tg trows) cfg.stackPaths =
                .ok sws :=
            Hostcfgd.editStacks_stable hs2
              (fun w hw => hall w (List.mem_append_right rendered hw))
          simp only [hstab]
    unfold Hostcfgd.runPass
    simp only [hc2]
    exact Hostcfgd.commitAll_noop writes ((Hostcfgd.commitAll fs writes).1) hall

/-- Witness for C4 at concrete inputs: the two insertion orders of the
same RADIUS server table aggregate identically, and the concrete pass over
cfgOne and fsOne is idempotent — the second pass returns the committed
filesystem unchanged with zero writes. -/
theorem C4_witness :
    (Hostcfgd.rowsA.Perm Hostcfgd.rowsB ∧
     (Hostcfgd.rowsA.map Prod.fst).Nodup ∧
     (Hostcfgd.C4writes.map Prod.fst).Nodup ∧
     Hostcfgd.candidates Hostcfgd.cfgOne
        (Hostcfgd.aggregate (some ["radius", "local"]) none Hostcfgd.rowsB none [])
        Hostcfgd.fsOne = .ok Hostcfgd.C4writes) ∧
    Hostcfgd.aggregate (some ["radius", "local"]) none Hostcfgd.rowsA none [] =
      Hostcfgd.aggregate (some ["radius", "local"]) none Hostcfgd.rowsB none [] ∧
    Hostcfgd.runPass Hostcfgd.cfgOne (some ["radius", "local"]) none
        Hostcfgd.rowsB none []
        ((Hostcfgd.commitAll Hostcfgd.fsOne Hostcfgd.C4writes).1) =
      ((Hostcfgd.commitAll Hostcfgd.fsOne Hostcfgd.C4writes).1, []) :=
  ⟨⟨by decide, by decide, by decide, rfl⟩,
   (C4_deterministic_idempotent.1 (some ["radius", "local"]) none none
      Hostcfgd.rowsA Hostcfgd.rowsB [] [] (by decide) (List.Perm.refl [])
      (by decide) (by decide)).1,
   (C4_deterministic_idempotent.2 Hostcfgd.cfgOne (some ["radius", "local"]) none
      Hostcfgd.rowsB none [] Hostcfgd.fsOne Hostcfgd.C4writes rfl (by decide)).2⟩
